import Mathlib

/-!
Verification development for the auditlog HTTP service (Go).

The repository contains the final service split into packages `mux`
(response envelope writer, authentication / logging middleware, method
router), `api` (event ingest and query handlers) and `main`, plus earlier
work-in-progress snapshots; `src/main.go` is one such snapshot holding its
own copy of the authentication middleware.

This file shallowly embeds the parts of the program that the claims are
about.  JSON documents are an inductive tree, machine strings are Lean
`String`s, the Mongo collection is a list of documents, and every fallible
external effect (body read, schema validation, store insert / find) is an
explicit parameter of the handler function, in the order the Go code
performs them.
-/

/-! ## Characters used when building and parsing JSON text -/

def quoteChar : Char := Char.ofNat 34

def backslashChar : Char := Char.ofNat 92

def newlineChar : Char := Char.ofNat 10

def lbraceChar : Char := Char.ofNat 123

def rbraceChar : Char := Char.ofNat 125

def lbrackChar : Char := Char.ofNat 91

def rbrackChar : Char := Char.ofNat 93

def commaChar : Char := Char.ofNat 44

def colonChar : Char := Char.ofNat 58

/-! ## JSON values

A dynamically typed JSON tree, the model of Go's `interface{}` holding
decoded JSON (`map[string]interface{}`, `[]interface{}`, `string`,
`float64`, `bool`, `nil`).  Numbers are rationals so that negative and
fractional timestamps are representable. -/

inductive JsonValue where
  | null
  | bool (b : Bool)
  | num (q : Rat)
  | str (s : String)
  | arr (elems : List JsonValue)
  | obj (fields : List (String × JsonValue))

/-- Escape one character the way `encoding/json` does for the characters
that can occur in this service's envelope descriptions: a double quote and
a backslash get a backslash escape, anything else is emitted literally.
(Go additionally escapes control characters and `<`, `>`, `&`; those
escapes decode back to the same character, so they are immaterial for the
round-trip property and are not modelled.) -/
def escChar (c : Char) : List Char :=
  if c = quoteChar then [backslashChar, quoteChar]
  else if c = backslashChar then [backslashChar, backslashChar]
  else [c]

def escapeChars : List Char → List Char
  | [] => []
  | c :: cs => escChar c ++ escapeChars cs

/-- Render a JSON string literal: quote, escaped content, quote. -/
def renderStringData (l : List Char) : List Char :=
  quoteChar :: (escapeChars l ++ [quoteChar])

/-! Model of `encoding/json.Marshal` on decoded JSON trees (character
list form).  Mutual recursion over the nested lists. -/

mutual

def renderJsonData : JsonValue → List Char
  | .null => "null".data
  | .bool b => if b then "true".data else "false".data
  | .num q => (toString q).data
  | .str s => renderStringData s.data
  | .arr es => lbrackChar :: (renderArrData es ++ [rbrackChar])
  | .obj fs => lbraceChar :: (renderObjData fs ++ [rbraceChar])

def renderArrData : List JsonValue → List Char
  | [] => []
  | [v] => renderJsonData v
  | v :: w :: rest => renderJsonData v ++ (commaChar :: renderArrData (w :: rest))

def renderObjData : List (String × JsonValue) → List Char
  | [] => []
  | [kv] => renderStringData kv.1.data ++ (colonChar :: renderJsonData kv.2)
  | kv :: kw :: rest =>
      (renderStringData kv.1.data ++ (colonChar :: renderJsonData kv.2))
        ++ (commaChar :: renderObjData (kw :: rest))

end

def renderJson (v : JsonValue) : String :=
  String.mk (renderJsonData v)

/-! ## The mux package: HTTP error and response envelope writer -/

/-- Translation of `mux.HttpError` (src/unnamed/part_003).  The Go struct
tags mark `Code` as never serialized and `Description` as serialized
under the JSON key `description`. -/
structure HttpError where
  Code : Int
  Description : String

/-- Translation of `mux.DefaultHttpError`: the standard status text for
the code.  `statusText` below models the `net/http.StatusText` table for
the codes this service uses (Go returns the empty string for others). -/
def statusText (code : Int) : String :=
  if code = 200 then "OK"
  else if code = 204 then "No Content"
  else if code = 400 then "Bad Request"
  else if code = 401 then "Unauthorized"
  else if code = 405 then "Method Not Allowed"
  else if code = 500 then "Internal Server Error"
  else ""

def DefaultHttpError (statusCode : Int) : HttpError :=
  { Code := statusCode, Description := statusText statusCode }

/-- Marshalling of `HttpError` under its struct tags: `Code` carries
`json:"-"` and is omitted; `Description` serializes under the key
`description`. -/
def httpErrorJson (e : HttpError) : JsonValue :=
  JsonValue.obj [("description", JsonValue.str e.Description)]

/-- The serialized envelope body for a description string. -/
def envelopeBody (d : String) : String :=
  renderJson (httpErrorJson { Code := 0, Description := d })

/-- The value Go's `WriteJsonResponse` receives: `nil`, an `HttpError`, a
non-`HttpError` error (carrying its `Error()` message), a marshalable
non-error value, or a non-error value whose `json.Marshal` fails (carrying
the marshal error's message, which the code discards). -/
inductive GoValue where
  | nil
  | httpErr (e : HttpError)
  | err (msg : String)
  | jsonVal (v : JsonValue)
  | unmarshalable (marshalErrMsg : String)

/-- Body written on a marshal failure, built by `fmt.Sprintf` from the 500
status text in the Go source. -/
def generic500Body : String :=
  "\x7b" ++ "\"description\":\"" ++ statusText 500 ++ "\"" ++ "\x7d"

/-- Model of `json.Marshal` applied to the value after the error
narrowing step (a non-`HttpError` error has already been replaced by
`HttpError{Description: e.Error()}` by the caller's flow).  An
`HttpError` always marshals successfully — its only visible field is a
string; only the `unmarshalable` values fail. -/
def goMarshal : GoValue → Option String
  | .nil => none
  | .httpErr e => some (renderJson (httpErrorJson e))
  | .err m => some (renderJson (httpErrorJson { Code := 0, Description := m }))
  | .jsonVal j => some (renderJson j)
  | .unmarshalable _ => none

/-- Translation of `mux.WriteJsonResponse` (final mux package), keeping
the source's control flow: `nil` short-circuits to 204 with body `{}`;
otherwise the value is narrowed — a non-`HttpError` error is replaced by
`HttpError{Description: e.Error()}` with the status forced to 500, while
an `HttpError` contributes its own code; the (narrowed) value is then
marshalled, a still-zero status becomes 200 on success, and a marshal
failure forces 500 with the generic `fmt.Sprintf` body. -/
def WriteJsonResponse (v : GoValue) : Int × String :=
  match v with
  | .nil => (204, String.mk [lbraceChar, rbraceChar])
  | _ =>
      let narrowed : GoValue :=
        match v with
        | .err m => .httpErr { Code := 0, Description := m }
        | x => x
      let statusCode : Int :=
        match v with
        | .httpErr e => e.Code
        | .err _ => 500
        | _ => 0
      match goMarshal narrowed with
      | some body => (if statusCode = 0 then 200 else statusCode, body)
      | none => (500, generic500Body)

/-! ## Authentication middleware

Two variants exist in the repository.  The `src/main.go` snapshot guards
the bearer extraction behind `len(self.Token) > 0` and uses the unanchored
pattern `[Bb]earer (.*)`; the final `mux` package always runs the anchored
pattern `^[Bb]earer (.+)$`.  Both compare the captured token to the
configured one and delegate on equality. -/

/-- Decision of a middleware: call the wrapped handler, or answer itself. -/
inductive AuthDecision where
  | delegate
  | unauthorized
deriving DecidableEq

/-- Whether the list starts with `Bearer ` or `bearer ` (the character
class `[Bb]` of the Go pattern: only the first letter varies). -/
def bearerAt (l : List Char) : Prop :=
  l.take 7 = "Bearer ".data ∨ l.take 7 = "bearer ".data

instance (l : List Char) : Decidable (bearerAt l) := by
  unfold bearerAt; infer_instance

namespace MainSnapshot

/-- Model of `regexp.MustCompile("[Bb]earer (.*)").FindStringSubmatch`:
leftmost position where `[Bb]earer ` occurs; the capture is the greedy
`.*` — the run of non-newline characters right after the space. -/
def findBearerCapture : List Char → Option (List Char)
  | [] => none
  | c :: cs =>
      if bearerAt (c :: cs) then
        some (((c :: cs).drop 7).takeWhile (fun ch => ch ≠ newlineChar))
      else findBearerCapture cs

/-- Translation of `AuthenticationMiddleware.ServeHTTP` from
`src/main.go` (lines 97–132): the bearer extraction only runs when the
configured token is non-empty; `request.Header.Get` yields the empty
string for a missing header. -/
def AuthServeHTTP (token : String) (authHeader : Option String) : AuthDecision :=
  let userToken : String :=
    if token.length > 0 then
      match findBearerCapture (authHeader.getD "").data with
      | some cap => String.mk cap
      | none => ""
    else ""
  if userToken = token then .delegate else .unauthorized

end MainSnapshot

/-- Result of the final mux middleware: delegate, or a full 401 answer. -/
inductive AuthResult where
  | delegate
  | respond (r : Int × String)
deriving DecidableEq

namespace Mux

/-- Model of `regexp.MustCompile("^[Bb]earer (.+)$").FindStringSubmatch`:
the whole header must be the scheme word, a space, then a non-empty
capture; `.+` cannot cross a newline and `$` is the end of the text, so a
header containing a newline after the scheme never matches. -/
def findBearerToken (s : String) : Option String :=
  if bearerAt s.data then
    if s.data.drop 7 ≠ [] ∧ (∀ ch ∈ s.data.drop 7, ch ≠ newlineChar) then
      some (String.mk (s.data.drop 7))
    else none
  else none

/-- Translation of `AuthenticationMiddleware.ServeHTTP` from the final
mux package: the extraction runs unconditionally, the captured token
(empty when the pattern did not match) is compared with the configured
one, and a mismatch answers with the 401 envelope. -/
def AuthServeHTTP (token : String) (authHeader : Option String) : AuthResult :=
  let userToken : String := (findBearerToken (authHeader.getD "")).getD ""
  if userToken = token then .delegate
  else .respond (WriteJsonResponse (GoValue.httpErr (DefaultHttpError 401)))

end Mux

/-! ## The api package: validation error formatting -/

/-- Translation of `jsonschema.KeyError` as the api package consumes it:
a property path and a message. -/
structure KeyError where
  PropertyPath : String
  Message : String
deriving DecidableEq

/-- Quote sanitization from `ValidationError.Error`: the regular
expression `"` replaces every double quote by a single quote,
character by character. -/
def sanitizeMessage (s : String) : String :=
  String.mk (s.data.map (fun c => if c = quoteChar then Char.ofNat 39 else c))

/-- One violation rendered by `ValidationError.Error`: the sanitized
message, with the property path prepended when it is set and not just
the root `/`. -/
def veString (ve : KeyError) : String :=
  let m := sanitizeMessage ve.Message
  if ve.PropertyPath.length ≠ 0 ∧ ve.PropertyPath ≠ "/" then
    ve.PropertyPath ++ " " ++ m
  else m

/-- Summary put in front of the first violation by the source. -/
def summaryHeader : String := "The json did not match the expected format: "

/-- One iteration of the loop in `ValidationError.Error`: the summary is
prepended while the accumulated string is still empty, later violations
are appended after `; `. -/
def errorStringStep (acc : String) (ve : KeyError) : String :=
  if acc.length = 0 then summaryHeader ++ veString ve
  else acc ++ "; " ++ veString ve

/-- Translation of `(ValidationError).Error` from `src/api/api.go`. -/
def ValidationErrorString (self : List KeyError) : String :=
  self.foldl errorStringStep ""

/-! ## The api package: event schema validation

The validator itself is the external `qri-io/jsonschema` library; what is
translated here is `resources/events_schema.json` under draft-07
semantics: the instance must be an object, the four fields are required,
`timestamp` is a number with minimum 0, `summary` a string with minLength
1, `source` and `attributes` objects.  Message texts are a model of the
library's wording; no theorem depends on them, only on which violation
lists are empty. -/

def jsonLookup (k : String) (fields : List (String × JsonValue)) : Option JsonValue :=
  (fields.find? (fun kv => kv.1 == k)).map (fun kv => kv.2)

def requiredKeys : List String := ["timestamp", "summary", "source", "attributes"]

def requiredErrors (fields : List (String × JsonValue)) : List KeyError :=
  (requiredKeys.filter (fun k => (jsonLookup k fields).isNone)).map
    (fun k => { PropertyPath := "/",
                Message := String.mk [quoteChar] ++ k ++ String.mk [quoteChar] ++ " value is required" })

def timestampErrors (fields : List (String × JsonValue)) : List KeyError :=
  match jsonLookup "timestamp" fields with
  | none => []
  | some (.num q) =>
      if q < 0 then [{ PropertyPath := "/timestamp", Message := "must be greater than or equal to 0" }]
      else []
  | some _ => [{ PropertyPath := "/timestamp", Message := "type should be number" }]

def summaryErrors (fields : List (String × JsonValue)) : List KeyError :=
  match jsonLookup "summary" fields with
  | none => []
  | some (.str s) =>
      if s.length < 1 then [{ PropertyPath := "/summary", Message := "min length of 1 characters required" }]
      else []
  | some _ => [{ PropertyPath := "/summary", Message := "type should be string" }]

def sourceErrors (fields : List (String × JsonValue)) : List KeyError :=
  match jsonLookup "source" fields with
  | none => []
  | some (.obj _) => []
  | some _ => [{ PropertyPath := "/source", Message := "type should be object" }]

def attributesErrors (fields : List (String × JsonValue)) : List KeyError :=
  match jsonLookup "attributes" fields with
  | none => []
  | some (.obj _) => []
  | some _ => [{ PropertyPath := "/attributes", Message := "type should be object" }]

/-- Validation of one decoded event against the schema of
`resources/events_schema.json`. -/
def validateEvent : JsonValue → List KeyError
  | .obj fields =>
      requiredErrors fields ++ timestampErrors fields ++ summaryErrors fields
        ++ sourceErrors fields ++ attributesErrors fields
  | _ => [{ PropertyPath := "/", Message := "type should be object" }]

/-- A request body as the ingest handler can distinguish it: bytes that
do not parse as JSON at all, or a decoded value. -/
inductive RawBody where
  | malformed
  | wellFormed (v : JsonValue)

/-- Model of `schema.ValidateBytes` for the event schema: a validator
internal failure on unparseable bytes, otherwise the violation list. -/
def schemaValidate : RawBody → Except Unit (List KeyError)
  | .malformed => .error ()
  | .wellFormed v => .ok (validateEvent v)

/-- Model of `json.Unmarshal(d, &event)` into
`map[string]interface{}`: fails unless the body is a JSON object. -/
def unmarshalObject : RawBody → Option (List (String × JsonValue))
  | .malformed => none
  | .wellFormed (.obj fs) => some fs
  | .wellFormed _ => none

/-- Message of the `json.Unmarshal` failure (external library text; the
handler passes it through as a plain error, no theorem depends on it). -/
def unmarshalErrorMessage : String :=
  "json: cannot unmarshal value into Go value of type map[string]interface \x7b\x7d"

/-! ## The api package: event ingest handler -/

/-- Translation of `api.EventsAddHandler` (src/api/api.go).  The Go
handler chains fallible steps through one `err` variable: a body read
failure becomes the default 400; a validator-internal failure becomes the
default 400; a non-empty violation list becomes a 400 `HttpError` whose
description is the formatted list; then the body is unmarshalled and the
document inserted, both surfacing their raw error; finally the `err`
value (possibly nil) goes to `WriteJsonResponse`.  The validator and the
insert outcome are explicit parameters (schema and collection are
injected in Go); the returned boolean records whether `InsertOne` was
reached. -/
def EventsAddHandler (validate : RawBody → Except Unit (List KeyError))
    (readOk : Bool) (body : RawBody) (insertResult : Except String Unit) :
    (Int × String) × Bool :=
  if readOk then
    match validate body with
    | .error _ => (WriteJsonResponse (GoValue.httpErr (DefaultHttpError 400)), false)
    | .ok validationError =>
        if validationError.length > 0 then
          (WriteJsonResponse (GoValue.httpErr
            { Code := 400, Description := ValidationErrorString validationError }), false)
        else
          match unmarshalObject body with
          | none => (WriteJsonResponse (GoValue.err unmarshalErrorMessage), false)
          | some _ =>
              match insertResult with
              | .error m => (WriteJsonResponse (GoValue.err m), true)
              | .ok _ => (WriteJsonResponse GoValue.nil, true)
  else
    (WriteJsonResponse (GoValue.httpErr (DefaultHttpError 400)), false)

/-! ## The api package: filter construction and query handler -/

/-- One Mongo BSON value as this service's filters and documents use
them: strings, numbers, ObjectIDs (12 bytes), booleans, null. -/
inductive BsonValue where
  | str (s : String)
  | num (q : Rat)
  | oid (id : List Nat)
  | bool (b : Bool)
  | null
deriving DecidableEq

/-- A stored document: top-level fields only, which is all the claims
about filtering need. -/
def Document := List (String × BsonValue)

/-- Value of one hexadecimal digit, as `encoding/hex` accepts them. -/
def hexVal (c : Char) : Option Nat :=
  if Char.ofNat 48 ≤ c ∧ c ≤ Char.ofNat 57 then some (c.toNat - 48)
  else if Char.ofNat 97 ≤ c ∧ c ≤ Char.ofNat 102 then some (c.toNat - 87)
  else if Char.ofNat 65 ≤ c ∧ c ≤ Char.ofNat 70 then some (c.toNat - 55)
  else none

/-- Model of `hex.DecodeString`: pairs of hex digits to bytes. -/
def hexDecode : List Char → Option (List Nat)
  | [] => some []
  | [_] => none
  | c1 :: c2 :: rest =>
      match hexVal c1, hexVal c2, hexDecode rest with
      | some hi, some lo, some bs => some ((16 * hi + lo) :: bs)
      | _, _, _ => none

/-- The all-zero `primitive.NilObjectID`. -/
def zeroObjectId : List Nat := List.replicate 12 0

/-- Model of `primitive.ObjectIDFromHex`: a 24-character hex string
decodes to its 12 bytes; any malformed input yields the zero ObjectID
(the Go function also returns an error, which `CreateFilterFromQuery`
discards). -/
def ObjectIDFromHex (s : String) : List Nat :=
  if s.data.length = 24 then
    match hexDecode s.data with
    | some bs => bs
    | none => zeroObjectId
  else zeroObjectId

/-- Model of `url.Values.Get`: the first value of the key, or the empty
string when there is none. -/
def goFirstValue (vs : List String) : String := vs.headD ""

/-- Translation of `api.CreateFilterFromQuery` (src/api/api.go): every
key of the query map becomes one entry; an `_id` key is decoded as an
ObjectID, every other key keeps the literal first string value. -/
def CreateFilterFromQuery (qp : List (String × List String)) : List (String × BsonValue) :=
  qp.map (fun kv =>
    (kv.1,
     if kv.1 = "_id" then BsonValue.oid (ObjectIDFromHex (goFirstValue kv.2))
     else BsonValue.str (goFirstValue kv.2)))

def docLookup (k : String) (d : Document) : Option BsonValue :=
  (List.find? (fun kv => kv.1 == k) d).map (fun kv => kv.2)

/-- Model of Mongo's equality matching for the filters this service
builds: a document matches when every filter entry equals the document's
top-level field of that name (a missing field matches no string or
ObjectID condition). -/
def matchesFilter (filter : List (String × BsonValue)) (d : Document) : Bool :=
  filter.all (fun kv => docLookup kv.1 d == some kv.2)

def hexDigitChar (n : Nat) : Char :=
  if n < 10 then Char.ofNat (48 + n) else Char.ofNat (87 + (n - 10))

def oidHex (bs : List Nat) : String :=
  String.mk (bs.foldr (fun b acc => hexDigitChar (b / 16) :: hexDigitChar (b % 16) :: acc) [])

/-- How the Go driver's documents serialize back to JSON values. -/
def bsonToJson : BsonValue → JsonValue
  | .str s => .str s
  | .num q => .num q
  | .oid id => .str (oidHex id)
  | .bool b => .bool b
  | .null => .null

def docToJson (d : Document) : JsonValue :=
  JsonValue.obj (d.map (fun kv => (kv.1, bsonToJson kv.2)))

/-- What Go's `json.Marshal` yields for a nil slice; the handler avoids
it by allocating the result slice with `make(..., 0)`. -/
def nullJson : String := "null"

/-- Translation of `api.EventsQueryHandler` (src/api/api.go): build the
filter from the query, run `Find` (its outcome — including a mid-stream
`cursor.All` failure — is the explicit `findResult` parameter), start
from the empty slice, collect every matching stored document, and write
either the raw error or the collected slice. -/
def EventsQueryHandler (store : List Document) (query : List (String × List String))
    (findResult : Except String Unit) : Int × String :=
  let filter := CreateFilterFromQuery query
  match findResult with
  | .error m => WriteJsonResponse (GoValue.err m)
  | .ok _ =>
      let results : List Document := store.filter (fun d => matchesFilter filter d)
      WriteJsonResponse (GoValue.jsonVal (JsonValue.arr (results.map docToJson)))

/-! ## A parser for envelope bodies

The round-trip claim compares the serialized envelope with what a JSON
parser reads back.  The parser below covers the grammar all envelope
bodies live in — objects whose field values are strings, with the same
two-character escapes the renderer emits — and demands that the whole
input is consumed, as `encoding/json` does. -/

/-- Parse the remainder of a JSON string literal (the opening quote is
already consumed): returns the decoded content and the input after the
closing quote. -/
def parseStringChars : List Char → Option (List Char × List Char)
  | [] => none
  | c :: cs =>
      if c = quoteChar then some ([], cs)
      else if c = backslashChar then
        match cs with
        | [] => none
        | e :: cs2 =>
            if e = quoteChar ∨ e = backslashChar then
              match parseStringChars cs2 with
              | some (content, rest) => some (e :: content, rest)
              | none => none
            else none
      else
        match parseStringChars cs with
        | some (content, rest) => some (c :: content, rest)
        | none => none

/-- Parse the fields of an object (the opening brace is already
consumed): a closing brace, or quoted key, colon, quoted value, then
either a comma and more fields or the closing brace. -/
def parseFieldsAux : Nat → List Char → Option (List (String × String) × List Char)
  | 0, _ => none
  | _ + 1, [] => none
  | fuel + 1, c :: cs =>
      if c = rbraceChar then some ([], cs)
      else if c = quoteChar then
        match parseStringChars cs with
        | none => none
        | some (key, rest1) =>
            match rest1 with
            | [] => none
            | c2 :: rest2 =>
                if c2 = colonChar then
                  match rest2 with
                  | [] => none
                  | c3 :: rest3 =>
                      if c3 = quoteChar then
                        match parseStringChars rest3 with
                        | none => none
                        | some (val, rest4) =>
                            match rest4 with
                            | [] => none
                            | c4 :: rest5 =>
                                if c4 = rbraceChar then
                                  some ([(String.mk key, String.mk val)], rest5)
                                else if c4 = commaChar then
                                  match parseFieldsAux fuel rest5 with
                                  | some (fields, r) =>
                                      some ((String.mk key, String.mk val) :: fields, r)
                                  | none => none
                                else none
                      else none
                else none
      else none

/-- Parse a whole envelope body: a JSON object of string fields, with
nothing before or after it. -/
def parseEnvelope (s : String) : Option (List (String × String)) :=
  match s.data with
  | [] => none
  | c :: cs =>
      if c = lbraceChar then
        match parseFieldsAux (cs.length + 1) cs with
        | some (fields, []) => some fields
        | _ => none
      else none

/-! ## Helper lemmas -/

theorem string_mk_inj {l m : List Char} (h : String.mk l = String.mk m) : l = m := by
  injection h

theorem string_eq_of_data_eq {s t : String} (h : s.data = t.data) : s = t := by
  cases s with
  | mk l => cases t with
    | mk m => exact congrArg String.mk h

theorem string_ne_empty_of_length {s : String} (h : s.length ≠ 0) : s ≠ "" := by
  intro he; rw [he] at h; exact h rfl

theorem string_length_ne_zero {s : String} (h : s ≠ "") : s.length ≠ 0 := by
  cases s with
  | mk l =>
    cases l with
    | nil => simp at h
    | cons c cs => simp [String.length]

theorem string_append_ne_empty_left {s : String} (t : String) (h : s ≠ "") : s ++ t ≠ "" := by
  apply string_ne_empty_of_length
  rw [String.length_append]
  have := string_length_ne_zero h
  omega

/-! ## C1: empty configured token in the src/main.go middleware -/

/-- C1: for every request, when the configured authentication token is
the empty string, the `src/main.go` authentication middleware delegates
to the wrapped handler (never answers 401), whatever Authorization
header — absent or of any value — the request carries: the guarded
extraction block never runs, so the user token stays empty and equals
the configured token. -/
theorem auth_main_empty_token_always_delegates :
    ∀ authHeader : Option String,
      MainSnapshot.AuthServeHTTP "" authHeader = AuthDecision.delegate := by
  intro authHeader
  rfl

/-! ## C2: non-empty configured token in the final mux middleware -/

/-- C2 (counterexample): the claim accepts the scheme word in any letter
case, but the pattern `^[Bb]earer (.+)$` only varies the first letter:
with secret `s` configured, the header `BEARER s` — the word bearer fully
uppercased, one space, exactly the secret — is rejected instead of
delegated. -/
theorem auth_mux_uppercase_scheme_rejected :
    ("BEARER s" : String) = "BEARER" ++ " " ++ "s"
    ∧ ("BEARER" : String).data.map Char.toLower = ("bearer" : String).data
    ∧ Mux.AuthServeHTTP "s" (some "BEARER s") ≠ AuthResult.delegate := by
  refine ⟨by decide, by decide, by decide⟩

/-- Shape of a successful match of the anchored bearer pattern: the
header is the scheme word (first letter in either case), a space, and the
captured token. -/
theorem findBearerToken_some_shape (s t : String)
    (h : Mux.findBearerToken s = some t) :
    s = "Bearer " ++ t ∨ s = "bearer " ++ t := by
  unfold Mux.findBearerToken at h
  by_cases hb : bearerAt s.data
  · rw [if_pos hb] at h
    by_cases hr : s.data.drop 7 ≠ [] ∧ ∀ c ∈ s.data.drop 7, c ≠ newlineChar
    · rw [if_pos hr] at h
      have ht : String.mk (s.data.drop 7) = t := Option.some.inj h
      have hdt : s.data.drop 7 = t.data := by rw [← ht]
      rcases hb with hb | hb
      · left
        apply string_eq_of_data_eq
        rw [String.data_append, ← hdt, ← hb]
        exact (List.take_append_drop 7 s.data).symm
      · right
        apply string_eq_of_data_eq
        rw [String.data_append, ← hdt, ← hb]
        exact (List.take_append_drop 7 s.data).symm
    · rw [if_neg hr] at h
      exact Option.noConfusion h
  · rw [if_neg hb] at h
    exact Option.noConfusion h

/-- The anchored bearer pattern accepts `Bearer <t>` and `bearer <t>` for
a non-empty newline-free token. -/
theorem findBearerToken_accepts (pat t : String)
    (hpat : pat = "Bearer " ∨ pat = "bearer ") (h1 : t.data ≠ [])
    (h2 : ∀ c ∈ t.data, c ≠ newlineChar) :
    Mux.findBearerToken (pat ++ t) = some t := by
  have hlen : pat.data.length = 7 := by
    rcases hpat with h | h <;> subst h <;> decide
  have hdata : (pat ++ t).data = pat.data ++ t.data := String.data_append _ _
  have htake : (pat ++ t).data.take 7 = pat.data := by
    rw [hdata]; exact List.take_left' hlen
  have hdrop : (pat ++ t).data.drop 7 = t.data := by
    rw [hdata]; exact List.drop_left' hlen
  have hb : bearerAt (pat ++ t).data := by
    rcases hpat with h | h <;> subst h
    · exact Or.inl htake
    · exact Or.inr htake
  unfold Mux.findBearerToken
  rw [if_pos hb, hdrop, if_pos ⟨h1, h2⟩]

/-- C2 (amended): with a non-empty configured secret that contains no
newline, the final mux middleware delegates exactly for the headers
`Bearer <secret>` and `bearer <secret>` — only the first letter of the
scheme word varies in case — and every other request (missing header,
wrong scheme, wrong token, leading or trailing content) gets the 401
envelope with the standard Unauthorized description. -/
theorem auth_mux_nonempty_token_exact_scheme
    (token : String) (hne : token ≠ "")
    (hnl : ∀ c ∈ token.data, c ≠ newlineChar) (authHeader : Option String) :
    (Mux.AuthServeHTTP token authHeader = AuthResult.delegate ↔
       authHeader = some ("Bearer " ++ token) ∨ authHeader = some ("bearer " ++ token))
    ∧ (Mux.AuthServeHTTP token authHeader ≠ AuthResult.delegate →
       Mux.AuthServeHTTP token authHeader =
         AuthResult.respond (401, envelopeBody (statusText 401))) := by
  have hdata : token.data ≠ [] := by
    intro h
    exact hne (string_eq_of_data_eq (t := "") h)
  constructor
  · constructor
    · intro hdel
      have hcond : (Mux.findBearerToken (authHeader.getD "")).getD "" = token := by
        by_contra hc
        simp only [Mux.AuthServeHTTP] at hdel
        rw [if_neg hc] at hdel
        exact absurd hdel (by simp)
      cases hft : Mux.findBearerToken (authHeader.getD "") with
      | none =>
          rw [hft] at hcond
          simp only [Option.getD_none] at hcond
          exact absurd hcond.symm hne
      | some u =>
          rw [hft] at hcond
          simp only [Option.getD_some] at hcond
          subst hcond
          have hshape := findBearerToken_some_shape (authHeader.getD "") u hft
          cases authHeader with
          | none =>
              exfalso
              simp only [Option.getD_none] at hshape
              rcases hshape with h | h <;>
              · have hlen := congrArg String.length h
                rw [String.length_append] at hlen
                have hz : ("" : String).length = 0 := by decide
                rw [hz] at hlen
                have := string_length_ne_zero hne
                omega
          | some s =>
              simp only [Option.getD_some] at hshape
              rcases hshape with h | h
              · exact Or.inl (congrArg some h)
              · exact Or.inr (congrArg some h)
    · intro hh
      rcases hh with h | h <;> subst h <;>
        simp only [Mux.AuthServeHTTP, Option.getD_some]
      · have hacc := findBearerToken_accepts "Bearer " token (Or.inl rfl) hdata hnl
        simp [hacc]
      · have hacc := findBearerToken_accepts "bearer " token (Or.inr rfl) hdata hnl
        simp [hacc]
  · intro hnot
    simp only [Mux.AuthServeHTTP] at hnot ⊢
    by_cases hcond : (Mux.findBearerToken (authHeader.getD "")).getD "" = token
    · rw [if_pos hcond] at hnot
      exact absurd rfl hnot
    · rw [if_neg hcond]
      decide

/-- C2 (witness): with secret `s`, the header `Bearer s` delegates and an
absent header gets the standard 401 envelope. -/
theorem auth_mux_nonempty_token_exact_scheme_witness :
    Mux.AuthServeHTTP "s" (some "Bearer s") = AuthResult.delegate
    ∧ Mux.AuthServeHTTP "s" none =
        AuthResult.respond (401, envelopeBody (statusText 401)) := by
  have h1 := auth_mux_nonempty_token_exact_scheme "s" (by decide) (by decide) (some "Bearer s")
  have h2 := auth_mux_nonempty_token_exact_scheme "s" (by decide) (by decide) none
  exact ⟨h1.1.mpr (Or.inl (by decide)), h2.2 (by decide)⟩

/-! ## C3: the envelope writer's response classification -/

/-- C3 (counterexample): the claim says an `HttpError` yields its carried
status code, but an `HttpError` whose code is zero falls through the
`statusCode == 0` default and yields 200 instead. -/
theorem write_json_zero_code_http_error_yields_200 :
    (WriteJsonResponse (GoValue.httpErr { Code := 0, Description := "x" })).1 = 200
    ∧ (200 : Int) ≠ 0 := by
  refine ⟨rfl, by decide⟩

/-- C3 (amended): `WriteJsonResponse` maps `nil` to 204 with body `{}`;
an `HttpError` with non-zero code to that code and the description
envelope; an `HttpError` with zero code to 200 (not its carried code); a
non-`HttpError` error to 500 with its message in the envelope; any other
marshalable value to 200 with the serialized body; and a value whose
serialization fails to 500 with the generic status-text body, a constant
that does not depend on the marshal error at all. -/
theorem write_json_response_contract :
    ∀ (e : HttpError) (m : String) (j : JsonValue),
      WriteJsonResponse GoValue.nil = (204, "\x7b\x7d")
      ∧ (e.Code ≠ 0 →
          WriteJsonResponse (GoValue.httpErr e) = (e.Code, envelopeBody e.Description))
      ∧ (e.Code = 0 →
          WriteJsonResponse (GoValue.httpErr e) = (200, envelopeBody e.Description))
      ∧ WriteJsonResponse (GoValue.err m) = (500, envelopeBody m)
      ∧ WriteJsonResponse (GoValue.jsonVal j) = (200, renderJson j)
      ∧ WriteJsonResponse (GoValue.unmarshalable m) = (500, generic500Body)
      ∧ generic500Body = envelopeBody (statusText 500) := by
  intro e m j
  obtain ⟨c, d⟩ := e
  refine ⟨by decide, ?_, ?_, ?_, ?_, rfl, by decide⟩
  · intro hc
    simp only [WriteJsonResponse, goMarshal]
    rw [if_neg hc]
    rfl
  · intro hc
    subst hc
    rfl
  · rfl
  · rfl

/-- C3 (witness): a 401 `HttpError` keeps its carried code. -/
theorem write_json_response_contract_witness :
    WriteJsonResponse (GoValue.httpErr (DefaultHttpError 401)) =
      ((DefaultHttpError 401).Code, envelopeBody (DefaultHttpError 401).Description) :=
  (write_json_response_contract (DefaultHttpError 401) "" JsonValue.null).2.1 (by decide)

/-! ## C4: what a store failure sends to the client -/

/-- C4 (counterexample): the claim says a store failure surfaced as a
500-class response carries only the generic standard message; in the
query handler a `Find` error is passed as a plain error to
`WriteJsonResponse`, which echoes its message — here `connection
refused` — in the description, which is not the generic status text. -/
theorem query_store_error_echoes_detail :
    EventsQueryHandler [] [] (Except.error "connection refused")
      = (500, envelopeBody "connection refused")
    ∧ envelopeBody "connection refused" ≠ envelopeBody (statusText 500) := by
  refine ⟨rfl, by decide⟩

/-- C4 (amended): a store failure — `Find` or mid-stream error in the
query handler, `InsertOne` error in the ingest handler — surfaces as
status 500 with the underlying error's own message echoed in the
description field; only a serialization failure inside the envelope
writer itself produces the generic status-text body. -/
theorem store_errors_surface_with_raw_message :
    ∀ (store : List Document) (query : List (String × List String)) (m : String)
      (validate : RawBody → Except Unit (List KeyError)) (body : RawBody)
      (insertMsg : String),
      EventsQueryHandler store query (Except.error m) = (500, envelopeBody m)
      ∧ (validate body = Except.ok [] → unmarshalObject body ≠ none →
          (EventsAddHandler validate true body (Except.error insertMsg)).1
            = (500, envelopeBody insertMsg))
      ∧ WriteJsonResponse (GoValue.unmarshalable m) = (500, generic500Body) := by
  intro store query m validate body insertMsg
  refine ⟨rfl, ?_, rfl⟩
  intro hval hunm
  obtain ⟨fs, hfs⟩ := Option.ne_none_iff_exists'.mp hunm
  simp [EventsAddHandler, hval, hfs, WriteJsonResponse, goMarshal, envelopeBody]

/-- C4 (witness): a concrete timeout message is echoed by both handlers. -/
theorem store_errors_surface_with_raw_message_witness :
    EventsQueryHandler [] [] (Except.error "context deadline exceeded")
      = (500, envelopeBody "context deadline exceeded")
    ∧ (EventsAddHandler (fun _ => Except.ok []) true
         (RawBody.wellFormed (JsonValue.obj [])) (Except.error "i/o timeout")).1
        = (500, envelopeBody "i/o timeout") := by
  have h := store_errors_surface_with_raw_message [] [] "context deadline exceeded"
    (fun _ => Except.ok []) (RawBody.wellFormed (JsonValue.obj [])) "i/o timeout"
  exact ⟨h.1, h.2.1 rfl (by simp [unmarshalObject])⟩

/-! ## C5: the 400 description built from schema violations -/

/-- Everything after the first violation in the built description. -/
def tailJoin : List KeyError → String
  | [] => ""
  | ve :: rest => "; " ++ veString ve ++ tailJoin rest

/-- The claim's join: per-violation strings concatenated with `; `. -/
def joinSemicolon : List String → String
  | [] => ""
  | [x] => x
  | x :: y :: rest => x ++ "; " ++ joinSemicolon (y :: rest)

theorem foldl_errorStringStep (l : List KeyError) :
    ∀ acc : String, acc ≠ "" → l.foldl errorStringStep acc = acc ++ tailJoin l := by
  induction l with
  | nil =>
      intro acc hacc
      simp [tailJoin, String.append_empty]
  | cons ve rest ih =>
      intro acc hacc
      have hstep : errorStringStep acc ve = acc ++ "; " ++ veString ve := by
        unfold errorStringStep
        rw [if_neg (string_length_ne_zero hacc)]
      have hne2 : acc ++ "; " ++ veString ve ≠ "" := by
        rw [String.append_assoc]
        exact string_append_ne_empty_left _ hacc
      calc (ve :: rest).foldl errorStringStep acc
          = rest.foldl errorStringStep (errorStringStep acc ve) := rfl
        _ = rest.foldl errorStringStep (acc ++ "; " ++ veString ve) := by rw [hstep]
        _ = (acc ++ "; " ++ veString ve) ++ tailJoin rest := ih _ hne2
        _ = acc ++ ("; " ++ veString ve ++ tailJoin rest) := by
              rw [String.append_assoc, String.append_assoc, String.append_assoc]
        _ = acc ++ tailJoin (ve :: rest) := by rw [tailJoin]

theorem joinSemicolon_map_veString (ve : KeyError) (rest : List KeyError) :
    joinSemicolon ((ve :: rest).map veString) = veString ve ++ tailJoin rest := by
  induction rest generalizing ve with
  | nil => simp [joinSemicolon, tailJoin, String.append_empty]
  | cons y ys ih =>
      calc joinSemicolon ((ve :: y :: ys).map veString)
          = veString ve ++ "; " ++ joinSemicolon ((y :: ys).map veString) := rfl
        _ = veString ve ++ "; " ++ (veString y ++ tailJoin ys) := by rw [ih]
        _ = veString ve ++ ("; " ++ (veString y ++ tailJoin ys)) := by
              rw [String.append_assoc]
        _ = veString ve ++ tailJoin (y :: ys) := by rw [tailJoin, String.append_assoc]

theorem validationErrorString_cons (ve : KeyError) (rest : List KeyError) :
    ValidationErrorString (ve :: rest)
      = summaryHeader ++ joinSemicolon ((ve :: rest).map veString) := by
  have hfirst : errorStringStep "" ve = summaryHeader ++ veString ve := by
    simp [errorStringStep]
  have hne : summaryHeader ++ veString ve ≠ "" :=
    string_append_ne_empty_left _ (by decide)
  calc ValidationErrorString (ve :: rest)
      = rest.foldl errorStringStep (errorStringStep "" ve) := rfl
    _ = rest.foldl errorStringStep (summaryHeader ++ veString ve) := by rw [hfirst]
    _ = (summaryHeader ++ veString ve) ++ tailJoin rest := foldl_errorStringStep rest _ hne
    _ = summaryHeader ++ (veString ve ++ tailJoin rest) := by rw [String.append_assoc]
    _ = summaryHeader ++ joinSemicolon ((ve :: rest).map veString) := by
          rw [joinSemicolon_map_veString]

/-- C5 (counterexample): the claim says the description is the
per-violation strings concatenated with `; `; for a single violation with
empty path and message `bad` the handler's description is the summary
sentence followed by `bad`, not the plain concatenation `bad`. -/
theorem validation_description_not_plain_join :
    (EventsAddHandler (fun _ => Except.ok [{ PropertyPath := "", Message := "bad" }]) true
        (RawBody.wellFormed (JsonValue.obj [])) (Except.ok ())).1
      = (400, envelopeBody "The json did not match the expected format: bad")
    ∧ ValidationErrorString [{ PropertyPath := "", Message := "bad" }]
        ≠ joinSemicolon ([{ PropertyPath := "", Message := "bad" }].map veString) := by
  refine ⟨rfl, by decide⟩

/-- C5 (amended): for every non-empty violation list the ingest handler
answers 400 with a description equal to the fixed summary sentence
`The json did not match the expected format: ` followed by the
per-violation strings concatenated with `; `, where each per-violation
string is the message with every double quote replaced by a single
quote, prefixed by the property path exactly when that path is non-empty
and not the root `/`. -/
theorem validation_400_description_format :
    ∀ (validate : RawBody → Except Unit (List KeyError)) (body : RawBody)
      (insertR : Except String Unit) (ve : KeyError) (rest : List KeyError),
      validate body = Except.ok (ve :: rest) →
      (EventsAddHandler validate true body insertR).1
        = (400, envelopeBody (summaryHeader ++ joinSemicolon ((ve :: rest).map (fun k =>
            if k.PropertyPath.length ≠ 0 ∧ k.PropertyPath ≠ "/" then
              k.PropertyPath ++ " " ++ String.mk (k.Message.data.map (fun c =>
                if c = quoteChar then Char.ofNat 39 else c))
            else String.mk (k.Message.data.map (fun c =>
                if c = quoteChar then Char.ofNat 39 else c))))))
      ∧ (EventsAddHandler validate true body insertR).2 = false := by
  intro validate body insertR ve rest hval
  have hmapeq : (fun k : KeyError =>
      if k.PropertyPath.length ≠ 0 ∧ k.PropertyPath ≠ "/" then
        k.PropertyPath ++ " " ++ String.mk (k.Message.data.map (fun c =>
          if c = quoteChar then Char.ofNat 39 else c))
      else String.mk (k.Message.data.map (fun c =>
          if c = quoteChar then Char.ofNat 39 else c))) = veString := by
    funext k
    simp [veString, sanitizeMessage]
  rw [hmapeq]
  have hlen : (ve :: rest).length > 0 := by simp
  constructor
  · simp only [EventsAddHandler, if_pos rfl, hval, hlen, if_true, reduceIte]
    rw [← validationErrorString_cons]
    rfl
  · simp only [EventsAddHandler, if_pos rfl, hval, hlen, if_true, reduceIte]

/-- C5 (witness): a violation list exercising the quote replacement and
the path rule yields the full formatted description. -/
theorem validation_400_description_format_witness :
    (EventsAddHandler
        (fun _ => Except.ok
          [{ PropertyPath := "/", Message := "\"source\" value is required" },
           { PropertyPath := "/summary", Message := "min length of 1 characters required" }])
        true (RawBody.wellFormed (JsonValue.obj [])) (Except.ok ())).1
      = (400, envelopeBody
          ("The json did not match the expected format: " ++
            "'source' value is required; /summary min length of 1 characters required")) := by
  have h := validation_400_description_format
    (fun _ => Except.ok
      [{ PropertyPath := "/", Message := "\"source\" value is required" },
       { PropertyPath := "/summary", Message := "min length of 1 characters required" }])
    (RawBody.wellFormed (JsonValue.obj [])) (Except.ok ())
    { PropertyPath := "/", Message := "\"source\" value is required" }
    [{ PropertyPath := "/summary", Message := "min length of 1 characters required" }] rfl
  rw [h.1]
  decide

/-! ## C6: schema-invalid bodies are rejected without touching the store -/

/-- C6: any POST body whose schema validation yields at least one
violation is answered with 400 and the insert is never reached; in
particular a body missing one of the required fields `timestamp`,
`summary`, `source`, `attributes`, a body whose `summary` has length 0,
and a body whose `timestamp` is negative all yield violations. -/
theorem events_add_invalid_body_rejected :
    ∀ (body : JsonValue) (insertR : Except String Unit)
      (fields : List (String × JsonValue)) (k : String) (s : String) (q : Rat),
      (validateEvent body ≠ [] →
         (EventsAddHandler schemaValidate true (RawBody.wellFormed body) insertR).1.1 = 400
         ∧ (EventsAddHandler schemaValidate true (RawBody.wellFormed body) insertR).2 = false)
      ∧ (k ∈ requiredKeys → jsonLookup k fields = none →
           validateEvent (JsonValue.obj fields) ≠ [])
      ∧ (jsonLookup "summary" fields = some (JsonValue.str s) → s.length = 0 →
           validateEvent (JsonValue.obj fields) ≠ [])
      ∧ (jsonLookup "timestamp" fields = some (JsonValue.num q) → q < 0 →
           validateEvent (JsonValue.obj fields) ≠ []) := by
  intro body insertR fields k s q
  refine ⟨?_, ?_, ?_, ?_⟩
  · intro hne
    have hlen : (validateEvent body).length > 0 := List.length_pos.mpr hne
    constructor
    · simp only [EventsAddHandler, if_pos rfl, schemaValidate, hlen, if_true, reduceIte]
      rfl
    · simp only [EventsAddHandler, if_pos rfl, schemaValidate, hlen, if_true, reduceIte]
  · intro hk hmiss
    have hmem : k ∈ requiredKeys.filter (fun k2 => (jsonLookup k2 fields).isNone) :=
      List.mem_filter.mpr ⟨hk, by simp [hmiss]⟩
    have hre : requiredErrors fields ≠ [] := by
      unfold requiredErrors
      intro hcontra
      rw [List.map_eq_nil_iff] at hcontra
      rw [hcontra] at hmem
      exact List.not_mem_nil k hmem
    intro hcontra
    simp only [validateEvent, List.append_eq_nil] at hcontra
    exact hre hcontra.1.1.1.1
  · intro hsum hlen
    have hse : summaryErrors fields ≠ [] := by
      unfold summaryErrors
      rw [hsum]
      have : s.length < 1 := by omega
      simp [this]
    intro hcontra
    simp only [validateEvent, List.append_eq_nil] at hcontra
    exact hse hcontra.1.1.2
  · intro hts hq
    have hte : timestampErrors fields ≠ [] := by
      unfold timestampErrors
      rw [hts]
      simp [hq]
    intro hcontra
    simp only [validateEvent, List.append_eq_nil] at hcontra
    exact hte hcontra.1.1.1.2

/-- C6 (witness): the empty object misses every required field, fails
validation, is answered 400, and the insert never runs. -/
theorem events_add_invalid_body_rejected_witness :
    (EventsAddHandler schemaValidate true (RawBody.wellFormed (JsonValue.obj []))
        (Except.ok ())).1.1 = 400
    ∧ (EventsAddHandler schemaValidate true (RawBody.wellFormed (JsonValue.obj []))
        (Except.ok ())).2 = false
    ∧ validateEvent (JsonValue.obj []) ≠ [] := by
  have h := events_add_invalid_body_rejected (JsonValue.obj []) (Except.ok ()) []
    "timestamp" "" 0
  have hne : validateEvent (JsonValue.obj []) ≠ [] := h.2.1 (by decide) rfl
  exact ⟨(h.1 hne).1, (h.1 hne).2, hne⟩

/-! ## C10: the empty violation list and schema-valid bodies -/

/-- C10: formatting the empty violation list yields the empty string (no
summary sentence is emitted), and when validation succeeds with zero
violations the ingest handler never answers 400 — a schema-valid body
can only lead to 204 or a 500-class store/decoding outcome, never to a
validation error response. -/
theorem no_validation_error_for_valid_body :
    ValidationErrorString [] = ""
    ∧ ∀ (validate : RawBody → Except Unit (List KeyError)) (body : RawBody)
        (insertR : Except String Unit),
        validate body = Except.ok [] →
        (EventsAddHandler validate true body insertR).1.1 ≠ 400 := by
  refine ⟨rfl, ?_⟩
  intro validate body insertR hval
  cases hunm : unmarshalObject body with
  | none =>
      simp [EventsAddHandler, hval, hunm, WriteJsonResponse, goMarshal]
  | some fs =>
      cases insertR with
      | error m => simp [EventsAddHandler, hval, hunm, WriteJsonResponse, goMarshal]
      | ok u => simp [EventsAddHandler, hval, hunm, WriteJsonResponse, goMarshal]

/-- C10 (witness): a body carrying all four required fields validates
cleanly and the response is not a 400. -/
theorem no_validation_error_for_valid_body_witness :
    (EventsAddHandler schemaValidate true
        (RawBody.wellFormed (JsonValue.obj
          [("timestamp", JsonValue.num 1), ("summary", JsonValue.str "x"),
           ("source", JsonValue.obj []), ("attributes", JsonValue.obj [])]))
        (Except.ok ())).1.1 ≠ 400 := by
  exact no_validation_error_for_valid_body.2 schemaValidate
    (RawBody.wellFormed (JsonValue.obj
      [("timestamp", JsonValue.num 1), ("summary", JsonValue.str "x"),
       ("source", JsonValue.obj []), ("attributes", JsonValue.obj [])]))
    (Except.ok ()) rfl

/-! ## C7: empty result array and empty filter -/

/-- C7: the query handler answers 200; when no stored event matches the
filter the body is the JSON array `[]`; the body is never the `null`
that a nil Go slice would serialize to, because the result slice is
allocated empty before the cursor runs; and a request with zero query
parameters builds the empty filter, which matches every stored event. -/
theorem events_query_empty_results_and_filter :
    ∀ (store : List Document) (query : List (String × List String)),
      (EventsQueryHandler store query (Except.ok ())).1 = 200
      ∧ (store.filter (fun d => matchesFilter (CreateFilterFromQuery query) d) = [] →
          (EventsQueryHandler store query (Except.ok ())).2 = "[]")
      ∧ (EventsQueryHandler store query (Except.ok ())).2 ≠ nullJson
      ∧ (query = [] →
          CreateFilterFromQuery query = [] ∧ ∀ d ∈ store, matchesFilter [] d = true) := by
  intro store query
  refine ⟨rfl, ?_, ?_, ?_⟩
  · intro hempty
    simp only [EventsQueryHandler, WriteJsonResponse, goMarshal]
    rw [hempty]
    rfl
  · intro hcontra
    have hdata : lbrackChar :: (renderArrData ((store.filter
        (fun d => matchesFilter (CreateFilterFromQuery query) d)).map docToJson)
          ++ [rbrackChar]) = ['n', 'u', 'l', 'l'] :=
      congrArg String.data hcontra
    injection hdata with h1 _
    exact absurd h1 (by decide)
  · intro hq
    subst hq
    exact ⟨rfl, fun d _ => rfl⟩

/-- C7 (witness): the empty store yields body `[]`, and the empty query
builds the empty filter. -/
theorem events_query_empty_results_and_filter_witness :
    (EventsQueryHandler [] [] (Except.ok ())).2 = "[]"
    ∧ CreateFilterFromQuery [] = [] := by
  have h := events_query_empty_results_and_filter [] []
  exact ⟨h.2.1 rfl, (h.2.2.2 rfl).1⟩

/-! ## C8: the query-to-filter translation -/

/-- C8: `CreateFilterFromQuery` keeps exactly the query's keys, one
equality condition each (so with distinct keys each key occurs exactly
once in the filter); a non-`_id` key maps to the literal first string
value; an `_id` key maps to the decoded ObjectID of its first value; a
malformed `_id` value silently decodes to the zero ObjectID; and a
zero-ObjectID `_id` condition matches no document whose `_id` is a
non-zero ObjectID. -/
theorem create_filter_equality_conditions :
    ∀ (qp : List (String × List String)) (k : String) (vs : List String)
      (s : String) (doc : Document) (objid : List Nat),
      ((CreateFilterFromQuery qp).map Prod.fst = qp.map Prod.fst)
      ∧ ((qp.map Prod.fst).Nodup → ∀ k2 ∈ qp.map Prod.fst,
           ((CreateFilterFromQuery qp).map Prod.fst).count k2 = 1)
      ∧ ((k, vs) ∈ qp → k ≠ "_id" →
           (k, BsonValue.str (goFirstValue vs)) ∈ CreateFilterFromQuery qp)
      ∧ (("_id", vs) ∈ qp →
           ("_id", BsonValue.oid (ObjectIDFromHex (goFirstValue vs)))
             ∈ CreateFilterFromQuery qp)
      ∧ (¬ (s.data.length = 24 ∧ hexDecode s.data ≠ none) →
           ObjectIDFromHex s = zeroObjectId)
      ∧ (docLookup "_id" doc = some (BsonValue.oid objid) → objid ≠ zeroObjectId →
           matchesFilter [("_id", BsonValue.oid zeroObjectId)] doc = false) := by
  intro qp k vs s doc objid
  have hkeys : (CreateFilterFromQuery qp).map Prod.fst = qp.map Prod.fst := by
    unfold CreateFilterFromQuery
    rw [List.map_map]
    rfl
  refine ⟨hkeys, ?_, ?_, ?_, ?_, ?_⟩
  · intro hnodup k2 hk2
    rw [hkeys]
    exact List.count_eq_one_of_mem hnodup hk2
  · intro hmem hk
    unfold CreateFilterFromQuery
    exact List.mem_map.mpr ⟨(k, vs), hmem, by simp [hk]⟩
  · intro hmem
    unfold CreateFilterFromQuery
    exact List.mem_map.mpr ⟨("_id", vs), hmem, by simp⟩
  · intro hbad
    unfold ObjectIDFromHex
    by_cases hlen : s.data.length = 24
    · rw [if_pos hlen]
      cases hdec : hexDecode s.data with
      | none => rfl
      | some bs => exact absurd ⟨hlen, by rw [hdec]; simp⟩ hbad
    · rw [if_neg hlen]
  · intro hlook hnz
    simp [matchesFilter, hlook, hnz]

/-- C8 (witness): the malformed `_id` value `zz` decodes to the zero
ObjectID, lands in the filter next to an ordinary key's condition, and
that filter misses a document with a non-zero ObjectID. -/
theorem create_filter_equality_conditions_witness :
    ("a", BsonValue.str "b") ∈ CreateFilterFromQuery [("_id", ["zz"]), ("a", ["b"])]
    ∧ ObjectIDFromHex "zz" = zeroObjectId
    ∧ ("_id", BsonValue.oid zeroObjectId)
        ∈ CreateFilterFromQuery [("_id", ["zz"]), ("a", ["b"])]
    ∧ matchesFilter [("_id", BsonValue.oid zeroObjectId)]
        [("_id", BsonValue.oid [1, 0, 0, 0, 0, 0, 0, 0, 0, 0, 0, 0])] = false := by
  have h := create_filter_equality_conditions [("_id", ["zz"]), ("a", ["b"])] "a" ["b"]
    "zz" [("_id", BsonValue.oid [1, 0, 0, 0, 0, 0, 0, 0, 0, 0, 0, 0])]
    [1, 0, 0, 0, 0, 0, 0, 0, 0, 0, 0, 0]
  have h2 := create_filter_equality_conditions [("_id", ["zz"]), ("a", ["b"])] "_id"
    ["zz"] "" [] []
  have hzz : ObjectIDFromHex "zz" = zeroObjectId := h.2.2.2.2.1 (by decide)
  have hmem := h2.2.2.2.1 (by decide)
  have hmem2 : ("_id", BsonValue.oid zeroObjectId)
      ∈ CreateFilterFromQuery [("_id", ["zz"]), ("a", ["b"])] := by
    simpa [goFirstValue, hzz] using hmem
  exact ⟨h.2.2.1 (by decide) (by decide), hzz, hmem2, h.2.2.2.2.2 rfl (by decide)⟩

/-! ## C9: round-tripping the error envelope -/

theorem parseStringChars_cons (c : Char) (cs : List Char) :
    parseStringChars (c :: cs) =
      if c = quoteChar then some ([], cs)
      else if c = backslashChar then
        match cs with
        | [] => none
        | e :: cs2 =>
            if e = quoteChar ∨ e = backslashChar then
              match parseStringChars cs2 with
              | some (content, rest) => some (e :: content, rest)
              | none => none
            else none
      else
        match parseStringChars cs with
        | some (content, rest) => some (c :: content, rest)
        | none => none := by
  rw [parseStringChars.eq_def]

theorem parseStringChars_escape (l rest : List Char) :
    parseStringChars (escapeChars l ++ (quoteChar :: rest)) = some (l, rest) := by
  induction l with
  | nil => simp [escapeChars, parseStringChars_cons]
  | cons c cs ih =>
      have hbq : ¬ (backslashChar = quoteChar) := by decide
      by_cases hq : c = quoteChar
      · subst hq
        simp [escapeChars, escChar, parseStringChars_cons, List.append_assoc, hbq, ih]
      · by_cases hb : c = backslashChar
        · subst hb
          simp [escapeChars, escChar, parseStringChars_cons, List.append_assoc, hbq, ih]
        · simp [escapeChars, escChar, parseStringChars_cons, List.append_assoc, hq, hb, ih]

theorem parseFieldsAux_succ (fuel : Nat) (c : Char) (cs : List Char) :
    parseFieldsAux (fuel + 1) (c :: cs) =
      (if c = rbraceChar then some ([], cs)
      else if c = quoteChar then
        match parseStringChars cs with
        | none => none
        | some (key, rest1) =>
            match rest1 with
            | [] => none
            | c2 :: rest2 =>
                if c2 = colonChar then
                  match rest2 with
                  | [] => none
                  | c3 :: rest3 =>
                      if c3 = quoteChar then
                        match parseStringChars rest3 with
                        | none => none
                        | some (val, rest4) =>
                            match rest4 with
                            | [] => none
                            | c4 :: rest5 =>
                                if c4 = rbraceChar then
                                  some ([(String.mk key, String.mk val)], rest5)
                                else if c4 = commaChar then
                                  match parseFieldsAux fuel rest5 with
                                  | some (fields, r) =>
                                      some ((String.mk key, String.mk val) :: fields, r)
                                  | none => none
                                else none
                      else none
                else none
      else none) := by
  rw [parseFieldsAux.eq_def]

theorem parseFieldsAux_single (key val : List Char) (fuel : Nat) :
    parseFieldsAux (fuel + 1)
      (quoteChar :: (escapeChars key ++ (quoteChar :: (colonChar :: (quoteChar ::
        (escapeChars val ++ (quoteChar :: [rbraceChar])))))))
      = some ([(String.mk key, String.mk val)], []) := by
  have hqr : ¬ (quoteChar = rbraceChar) := by decide
  have h1 := parseStringChars_escape key
    (colonChar :: (quoteChar :: (escapeChars val ++ (quoteChar :: [rbraceChar]))))
  have h2 := parseStringChars_escape val [rbraceChar]
  simp [parseFieldsAux_succ, hqr, h1, h2]

theorem parseEnvelope_mk_cons (c : Char) (cs : List Char) :
    parseEnvelope (String.mk (c :: cs)) =
      (if c = lbraceChar then
        match parseFieldsAux (cs.length + 1) cs with
        | some (fields, []) => some fields
        | _ => none
      else none) := by
  rw [parseEnvelope.eq_def]

/-- C9: serializing any error envelope the service generates and parsing
the body back yields an object with exactly one field, `description`,
whose value is the description string; the numeric `Code` field is never
part of the serialized body. -/
theorem error_envelope_roundtrip :
    ∀ e : HttpError,
      parseEnvelope (renderJson (httpErrorJson e)) = some [("description", e.Description)] := by
  intro e
  have hflat : renderJsonData (httpErrorJson e)
      = lbraceChar :: (quoteChar :: (escapeChars ("description".data) ++ (quoteChar ::
          (colonChar :: (quoteChar :: (escapeChars e.Description.data ++
            (quoteChar :: [rbraceChar]))))))) := by
    simp [httpErrorJson, renderJsonData, renderObjData, renderStringData, List.append_assoc]
  have hrw : renderJson (httpErrorJson e)
      = String.mk (lbraceChar :: (quoteChar :: (escapeChars ("description".data) ++ (quoteChar ::
          (colonChar :: (quoteChar :: (escapeChars e.Description.data ++
            (quoteChar :: [rbraceChar])))))))) := by
    rw [renderJson, hflat]
  rw [hrw, parseEnvelope_mk_cons]
  have hsingle := parseFieldsAux_single ("description".data) (e.Description.data)
    ((quoteChar :: (escapeChars ("description".data) ++ (quoteChar ::
      (colonChar :: (quoteChar :: (escapeChars e.Description.data ++
        (quoteChar :: [rbraceChar]))))))).length)
  simp only [hsingle, if_pos rfl]
  rfl
